import Mathlib

/-!
Verification of the hayhaiSearch content-acquisition pipeline (`web_agent.py`).

The Python source is shallowly embedded below.  External effects (the Qwant
HTTP API, page fetching/HTML parsing, the YouTube transcript API) are
modelled as oracles passed in as function/record parameters; all control
flow, filtering, capping, caching and fallback logic is translated
faithfully from the source.  Real-valued wall-clock times are modelled as
rationals.
-/

/-! ## Python string primitives used by the source

`str.strip`, the `in` substring test, `str.replace` and `str.lower` are
embedded as executable functions over the character list of a string. -/

/-- Python `str.strip()` on a character list: drop whitespace from both ends. -/
def stripChars (l : List Char) : List Char :=
  ((l.dropWhile Char.isWhitespace).reverse.dropWhile Char.isWhitespace).reverse

/-- Python `str.strip()`. -/
def pyStrip (s : String) : String := String.mk (stripChars s.data)

/-- Python substring test `pat in s` on character lists (`pat` nonempty in all uses). -/
def containsChars (pat : List Char) : List Char → Bool
  | [] => pat.isEmpty
  | c :: rest => pat.isPrefixOf (c :: rest) || containsChars pat rest

/-- Python `pat in s`. -/
def strContains (s pat : String) : Bool := containsChars pat.data s.data

/-- Python `str.replace(pat, rep)` on character lists: replace every
(leftmost, non-overlapping) occurrence of `pat`.  All patterns appearing in
the source are nonempty, and this embedding is only used with nonempty
patterns.  The fuel argument (instantiated with the list length, which
bounds the recursion depth since a nonempty match consumes at least one
character) keeps the recursion structural. -/
def replaceCharsAux (pat rep : List Char) : ℕ → List Char → List Char
  | _, [] => []
  | 0, c :: rest => c :: rest
  | fuel + 1, c :: rest =>
    if pat ≠ [] ∧ pat.isPrefixOf (c :: rest) then
      rep ++ replaceCharsAux pat rep fuel ((c :: rest).drop pat.length)
    else
      c :: replaceCharsAux pat rep fuel rest

/-- Replacement of every leftmost occurrence of `pat` by `rep`. -/
def replaceChars (pat rep : List Char) (l : List Char) : List Char :=
  replaceCharsAux pat rep l.length l

/-- Python `s.replace(pat, rep)`. -/
def strReplace (s pat rep : String) : String :=
  String.mk (replaceChars pat.data rep.data s.data)

/-- Python `str.lower()` (ASCII, as used on the query text). -/
def pyLower (s : String) : String := String.mk (s.data.map Char.toLower)

/-- A single-quote character as a string (replacement text used by the source). -/
def apos : String := String.mk [Char.ofNat 39]

/-! ## RateLimiter (web_agent.py lines 96-127)

`time.time()` values are modelled as rationals.  The request and token
deques are lists of timestamps, oldest first. -/

structure RateLimiter where
  rpm_limit : ℕ
  tpm_limit : ℕ
  requests : List ℚ
  tokens : List ℚ

/-- `RateLimiter._clean_old_entries` (lines 105-107): pop entries from the
front while `current_time - queue[0] >= 60`. -/
def cleanOldEntries (t : ℚ) (q : List ℚ) : List ℚ :=
  q.dropWhile (fun x => decide ((60 : ℚ) ≤ t - x))

/-- `RateLimiter.can_make_request` (lines 109-116): prune both deques, then
test `len(requests) < rpm_limit and len(tokens) + tokens <= tpm_limit`.
Returns the boolean together with the pruned limiter state (the pruning
mutates the deques in place in the source). -/
def RateLimiter.can_make_request (rl : RateLimiter) (t : ℚ) (toks : ℕ) :
    Bool × RateLimiter :=
  let reqs := cleanOldEntries t rl.requests
  let tks := cleanOldEntries t rl.tokens
  (decide (reqs.length < rl.rpm_limit ∧ tks.length + toks ≤ rl.tpm_limit),
   { rl with requests := reqs, tokens := tks })

/-- `RateLimiter.add_request` (lines 118-124): append the current time to the
request deque and, when `tokens > 0`, one entry per token to the token deque. -/
def RateLimiter.add_request (rl : RateLimiter) (t : ℚ) (toks : ℕ) : RateLimiter :=
  { rl with requests := rl.requests ++ [t],
            tokens := rl.tokens ++ List.replicate toks t }

/-- The pre-invocation phase of one `with_retries` attempt (lines 135-139):
check `can_make_request()`; when it is `false`, compute the single wait
duration `60 - (now - requests[0])` from the pruned deque and proceed without
re-checking.  `some w` means the attempt proceeds to invoke the operation
after waiting `w` seconds (`w = 0` when no wait happened); `none` models the
`IndexError` crash on an empty pruned deque (only reachable with
`rpm_limit = 0`), which the decorator surfaces as an HTTP 500 error. -/
def with_retries_attempt (rl : RateLimiter) (now : ℚ) : Option ℚ :=
  let res := rl.can_make_request now 0
  if res.1 then some 0
  else
    match res.2.requests with
    | o :: _ => some (60 - (now - o))
    | [] => none

/-! ### The sequential calling discipline of `with_retries`

`with_retries` (lines 129-153) drives the limiter as follows on every
attempt: it calls `can_make_request()` (with 0 tokens) at the current time;
if the answer is `false` it sleeps until the oldest surviving request
timestamp is 60 seconds old and proceeds without re-checking; it records the
request (with 0 tokens, so the token deque stays empty) only after the
wrapped operation succeeds, hence at a time no earlier than the wake-up
time.  `WrapperTrace rpm tpm ts` holds of the lists `ts` of recorded request
timestamps producible by any such sequence of calls. -/

inductive WrapperTrace (rpm tpm : ℕ) : List ℚ → Prop where
  | nil : WrapperTrace rpm tpm []
  | ok {ts : List ℚ} (c r : ℚ)
      (prev : WrapperTrace rpm tpm ts)
      (hmono : ∀ x ∈ ts, x ≤ c)
      (hcheck : (RateLimiter.can_make_request ⟨rpm, tpm, ts, []⟩ c 0).1 = true)
      (hcr : c ≤ r) :
      WrapperTrace rpm tpm (ts ++ [r])
  | wait {ts : List ℚ} (c r o : ℚ) (rest : List ℚ)
      (prev : WrapperTrace rpm tpm ts)
      (hmono : ∀ x ∈ ts, x ≤ c)
      (hcheck : (RateLimiter.can_make_request ⟨rpm, tpm, ts, []⟩ c 0).1 = false)
      (hclean : cleanOldEntries c ts = o :: rest)
      (hor : o + 60 ≤ r) :
      WrapperTrace rpm tpm (ts ++ [r])

/-- Membership of a timestamp in the trailing 60-second window ending at `T`. -/
def inWindow (T x : ℚ) : Bool := decide (x ≤ T ∧ T - x < 60)

/-- Number of recorded timestamps inside the trailing window ending at `T`. -/
def windowCount (ts : List ℚ) (T : ℚ) : ℕ := ts.countP (inWindow T)

/-! ## Query classification helpers (web_agent.py lines 272-278) -/

/-- The fixed keyword set of `is_video_query`. -/
def videoKeywords : List String := ["video", "youtube", "watch", "clip", "footage"]

/-- `is_video_query` (lines 272-278): the search type is `videos`, or the
lowered question contains one of the video keywords. -/
def is_video_query (question search_type : String) : Bool :=
  search_type == "videos" ||
    videoKeywords.any (fun k => strContains (pyLower question) k)

/-! ## Qwant result items and URL extraction (web_agent.py lines 330-362) -/

/-- A nested sub-item: a dict that may carry a `url` key. -/
structure SubItem where
  url : Option String

/-- A result item: a dict that may carry a `url` key and/or a nested `items`
list (the `url` key wins when both are present, per the `if`/`elif`). -/
structure Item where
  url : Option String
  items : Option (List SubItem)

/-- The two shapes of `items_data` handled by `extract_urls_from_items`:
either a plain list of items, or a dict wrapping the list under a
`mainline` key. -/
inductive ItemsData where
  | flat (items : List Item)
  | mainline (items : List Item)

/-- The URL-skip test (lines 345, 357): `'youtube.com' in url or 'youtu.be' in url`. -/
def isYoutubeUrl (url : String) : Bool :=
  strContains url "youtube.com" || strContains url "youtu.be"

/-- A URL survives the skip test (line 345): kept unless the search is not a
video search and the URL is a YouTube URL. -/
def eligibleUrl (is_video_search : Bool) (url : String) : Bool :=
  is_video_search || !(isYoutubeUrl url)

/-- The inner `for subitem in item['items']` loop (lines 352-361): per
sub-item, break once `count >= max_results`, skip YouTube URLs outside video
searches, skip duplicates, otherwise append and bump the count. -/
def subLoop (iv : Bool) (mr : ℕ) : List SubItem → List String → ℕ → List String × ℕ
  | [], urls, count => (urls, count)
  | s :: rest, urls, count =>
    if mr ≤ count then (urls, count)
    else
      match s.url with
      | some u =>
        if !(eligibleUrl iv u) then subLoop iv mr rest urls count
        else if u ∈ urls then subLoop iv mr rest urls count
        else subLoop iv mr rest (urls ++ [u]) (count + 1)
      | none => subLoop iv mr rest urls count

/-- The outer `for item in items_data` loop (lines 338-361). -/
def extractLoop (iv : Bool) (mr : ℕ) : List Item → List String → ℕ → List String × ℕ
  | [], urls, count => (urls, count)
  | item :: rest, urls, count =>
    if mr ≤ count then (urls, count)
    else
      match item.url with
      | some u =>
        if !(eligibleUrl iv u) then extractLoop iv mr rest urls count
        else if u ∈ urls then extractLoop iv mr rest urls count
        else extractLoop iv mr rest (urls ++ [u]) (count + 1)
      | none =>
        match item.items with
        | some subs =>
          let p := subLoop iv mr subs urls count
          extractLoop iv mr rest p.1 p.2
        | none => extractLoop iv mr rest urls count

/-- `extract_urls_from_items` (lines 330-362): early-return on a falsy
`items_data`, unwrap a `mainline` container, then run the item loop.  The
Python helper mutates `url_list` in place and returns `count`; the embedding
returns the updated list together with the count. -/
def extract_urls_from_items (iv : Bool) (mr : ℕ) (d : ItemsData)
    (urls : List String) (count : ℕ) : List String × ℕ :=
  match d with
  | .flat [] => (urls, count)
  | .flat items => extractLoop iv mr items urls count
  | .mainline items => extractLoop iv mr items urls count

/-- Flattening of the nested item shape: an item carrying nested sub-items is
replaced by one plain item per sub-item; items with neither key are dropped. -/
def flattenItems : List Item → List Item
  | [] => []
  | i :: rest =>
    match i.url, i.items with
    | some u, _ => ⟨some u, i.items⟩ :: flattenItems rest
    | none, some subs => subs.map (fun s => ⟨s.url, none⟩) ++ flattenItems rest
    | none, none => flattenItems rest

/-- The stream of candidate URLs of an item list, in provider order. -/
def urlStream : List Item → List String
  | [] => []
  | i :: rest =>
    match i.url, i.items with
    | some u, _ => u :: urlStream rest
    | none, some subs => subs.filterMap SubItem.url ++ urlStream rest
    | none, none => urlStream rest

/-- URL collection as a single fold over the candidate-URL stream: stop at
`max_results`, skip ineligible URLs, skip duplicates, append the rest. -/
def collectUrls (iv : Bool) (mr : ℕ) : List String → List String → ℕ → List String × ℕ
  | [], urls, count => (urls, count)
  | u :: rest, urls, count =>
    if mr ≤ count then (urls, count)
    else if !(eligibleUrl iv u) then collectUrls iv mr rest urls count
    else if u ∈ urls then collectUrls iv mr rest urls count
    else collectUrls iv mr rest (urls ++ [u]) (count + 1)

/-- The item list wrapped by an `ItemsData`. -/
def itemsDataList : ItemsData → List Item
  | .flat l => l
  | .mainline l => l

/-- Number of distinct URLs of a result set that survive the video-skip rule. -/
def eligibleCount (iv : Bool) (d : ItemsData) : ℕ :=
  ((urlStream (itemsDataList d)).filter (fun u => eligibleUrl iv u)).toFinset.card

/-! ## YouTube id extraction (web_agent.py lines 431-441)

The regex `(?:youtube\.com/watch\?v=|youtu\.be/)([a-zA-Z0-9_-]+)` is searched
left-to-right; the capture group is the maximal nonempty run of id
characters following either literal prefix. -/

/-- A character of the regex class `[a-zA-Z0-9_-]`. -/
def idChar (c : Char) : Bool := c.isAlphanum || c == '_' || c == '-'

/-- The first literal alternative, `youtube.com/watch?v=`, as characters. -/
def ytPrefix1 : List Char := "youtube.com/watch?v=".data

/-- The second literal alternative, `youtu.be/`, as characters. -/
def ytPrefix2 : List Char := "youtu.be/".data

/-- Left-to-right scan for the earliest regex match; at each position the
first alternative is tried before the second, and a match needs at least one
id character after the prefix. -/
def scanYt : List Char → Option (List Char)
  | [] => none
  | c :: rest =>
    if ytPrefix1.isPrefixOf (c :: rest) ∧ ((c :: rest).drop ytPrefix1.length).takeWhile idChar ≠ [] then
      some (((c :: rest).drop ytPrefix1.length).takeWhile idChar)
    else if ytPrefix2.isPrefixOf (c :: rest) ∧ ((c :: rest).drop ytPrefix2.length).takeWhile idChar ≠ [] then
      some (((c :: rest).drop ytPrefix2.length).takeWhile idChar)
    else scanYt rest

/-- `extract_youtube_id` (lines 431-441). -/
def extract_youtube_id (url : String) : Option String :=
  (scanYt url.data).map String.mk

/-! ## YouTube transcript retrieval (web_agent.py lines 443-467)

The transcript API is external; its fallible steps are modelled as an
oracle record.  `listOk` is whether `list_transcripts` succeeds;
`enTranscript` is the result of `find_transcript(['en'])`; `anyTranslated`
is the result of finding any transcript and translating it to English
(`none` models an exception in either step, including the
`transcript_data` attribute access). -/

structure YtTranscript where
  fetchResult : Option (List String)

structure YtOracle where
  listOk : Bool
  enTranscript : Option YtTranscript
  anyTranslated : Option YtTranscript

/-- The transcript chosen by the nested `try` blocks: English if available,
otherwise the translated fallback. -/
def chosenTranscript (yt : YtOracle) : Option YtTranscript :=
  match yt.enTranscript with
  | some t => some t
  | none => yt.anyTranslated

/-- Per-entry cleanup (lines 460-463):
`entry['text'].replace('"', "'").replace('\n', ' ').strip()`. -/
def cleanTranscriptEntry (s : String) : String :=
  pyStrip (strReplace (strReplace s "\x22" apos) "\n" " ")

/-- `get_youtube_transcript` (lines 443-467): every failure path returns the
empty string; on success the cleaned entry texts are joined with single
spaces and prefixed with the `[Transcript]` marker. -/
def get_youtube_transcript (yt : YtOracle) : String :=
  if !yt.listOk then ""
  else
    match chosenTranscript yt with
    | none => ""
    | some t =>
      match t.fetchResult with
      | none => ""
      | some entries =>
        "[Transcript] " ++ " ".intercalate (entries.map cleanTranscriptEntry)

/-! ## Content extraction (web_agent.py lines 469-591)

The HTTP fetch and HTML parse are external; their observable outcome is
either a failure (any of the early `return ""` paths: exhausted retries,
non-200 status, binary content type, decode failure, unexpected error) or
the list of text fragments the BeautifulSoup cascade appended to `data`. -/

inductive WebFetchOutcome where
  | fail
  | parsed (fragments : List String)

/-- The content cache, keyed by `f"{url}:{is_video_search}"`; modelled as an
association list keyed by the (url, flag) pair, newest entry first. -/
abbrev ContentCache := List ((String × Bool) × String)

/-- Lookup in the content cache. -/
def cacheLookup (cache : ContentCache) (key : String × Bool) : Option String :=
  match cache.find? (fun kv => decide (kv.1 = key)) with
  | some kv => some kv.2
  | none => none

/-- The generic web-page tail of `get_content` (lines 495-591): join the
parsed fragments with single spaces, truncate to 10000 characters with a
`...` marker, and cache the result only when its strip is nonempty. -/
def get_content_web (web : WebFetchOutcome) (key : String × Bool)
    (cache : ContentCache) : String × ContentCache :=
  match web with
  | .fail => ("", cache)
  | .parsed fragments =>
    let joined := " ".intercalate fragments
    let content := if 10000 < joined.length then joined.take 10000 ++ "..." else joined
    if pyStrip content ≠ "" then (content, (key, content) :: cache)
    else (content, cache)

/-- `get_content` (lines 469-591): cache hit short-circuits; a recognized
video URL in a video search takes the transcript path, caching and returning
the cleaned transcript when it is nonempty and otherwise falling through to
the generic web path; a recognized video URL outside a video search returns
the empty string immediately.  Returns the content and the updated cache. -/
def get_content (cache : ContentCache) (yt : YtOracle) (web : WebFetchOutcome)
    (url : String) (is_video_search : Bool) : String × ContentCache :=
  let key := (url, is_video_search)
  match cacheLookup cache key with
  | some v => (v, cache)
  | none =>
    match extract_youtube_id url with
    | some _ =>
      if is_video_search then
        let transcript := get_youtube_transcript yt
        if transcript ≠ "" then
          let cleaned := pyStrip (strReplace (strReplace transcript "\x22" apos) "\x5c" "")
          (cleaned, (key, cleaned) :: cache)
        else get_content_web web key cache
      else ("", cache)
    | none => get_content_web web key cache

/-! ## Per-URL fetch with fallbacks (web_agent.py lines 386-415)

`fetch_url_with_semaphore` calls `get_content` on the URL; when the result
strips to nothing it tries, depending on the domain, the GitHub raw-content
mirror or up to two alternate documentation hostnames, each exactly once.
The pipeline passes `get_content` as an oracle `gc : url → is_video_search →
content` here; the semaphore only bounds concurrency and does not affect the
per-URL result.  The embedding also returns the list of URLs passed to
`get_content`, in order, to record which fetches were attempted. -/

/-- The GitHub raw-mirror rewrite (lines 396-397). -/
def githubRawUrl (url : String) : String :=
  strReplace (strReplace url "github.com" "raw.githubusercontent.com") "/blob/" "/"

/-- The first documentation-hostname rewrite (line 405). -/
def docsWwwUrl (url : String) : String := strReplace url "docs." "www."

/-- The second documentation-hostname rewrite (line 406). -/
def docsBareUrl (url : String) : String := strReplace url "docs." ""

/-- The acceptance test `if content and content.strip():` (lines 390, 399, 410). -/
def contentOk (content : String) : Bool :=
  content ≠ "" && pyStrip content ≠ ""

/-- `fetch_url_with_semaphore` with an attempt log: the result (`none` models
the final `return None`) together with the URLs fetched, in order. -/
def fetch_url_trace (gc : String → Bool → String) (iv : Bool) (url : String) :
    Option (String × String) × List String :=
  let content := gc url iv
  if contentOk content then (some (url, content), [url])
  else if strContains url "github.com" then
    let raw := githubRawUrl url
    let rawContent := gc raw iv
    if contentOk rawContent then (some (url, rawContent), [url, raw])
    else (none, [url, raw])
  else if strContains url "docs." then
    let alt1 := docsWwwUrl url
    let c1 := gc alt1 iv
    if contentOk c1 then (some (url, c1), [url, alt1])
    else
      let alt2 := docsBareUrl url
      let c2 := gc alt2 iv
      if contentOk c2 then (some (url, c2), [url, alt1, alt2])
      else (none, [url, alt1, alt2])
  else (none, [url])

/-- `fetch_url_with_semaphore` (lines 386-415): just the returned value. -/
def fetch_url_with_semaphore (gc : String → Bool → String) (iv : Bool) (url : String) :
    Option (String × String) :=
  (fetch_url_trace gc iv url).1

/-! ## Search dispatch and the acquisition pipeline (web_agent.py lines 280-429)

A provider call (`QwantApi.search`) either raises or returns a JSON dict.
Of the returned dict the pipeline observes only its Python truthiness and
the `['data']['result']['items']` chain, modelled as the two fields of
`QwantResponse`.  The provider is an oracle `search : search_type →
ProviderCall` (the query and remaining parameters are fixed for one
pipeline run). -/

structure QwantResponse where
  truthy : Bool
  items : Option ItemsData

inductive ProviderCall where
  | raises
  | returns (r : QwantResponse)

/-- Python truthiness of `results` / `secondary_results` (lines 308, 368, 372). -/
def optTruthy : Option QwantResponse → Bool
  | none => false
  | some r => r.truthy

/-- The search dispatch (lines 294-322).  For `web`, both a `web` and a
`news` search run and exceptions are mapped to `None`; when the primary is
falsy and the secondary truthy, the secondary is promoted.  For any other
type, a single typed search runs, falling back to a `web` search only when
the typed search raises; when both raise, `results` is `None`.  The
`except` on lines 324-326 (which would return an error-annotated dict) has
no counterpart here: every provider call inside the `try` is already
guarded by an inner handler, so no exception reaches it. -/
def qwant_dispatch (search : String → ProviderCall) (search_type : String) :
    Option QwantResponse × Option QwantResponse :=
  if search_type = "web" then
    let r1 : Option QwantResponse :=
      match search "web" with
      | .raises => none
      | .returns r => some r
    let r2 : Option QwantResponse :=
      match search "news" with
      | .raises => none
      | .returns r => some r
    if !(optTruthy r1) && optTruthy r2 then (r2, none) else (r1, r2)
  else
    match search search_type with
    | .returns r => (some r, none)
    | .raises =>
      match search "web" with
      | .returns r => (some r, none)
      | .raises => (none, none)

/-- The guarded access `results and 'data' in results and 'result' in
results['data'] and 'items' in results['data']['result']` (lines 368, 372-375). -/
def resp_items : Option QwantResponse → Option ItemsData
  | none => none
  | some r => if r.truthy then r.items else none

/-- One guarded extraction step over an optional `items` chain, continuing
from the accumulated list and count. -/
def extract_stage (iv : Bool) (mr : ℕ) (od : Option ItemsData)
    (p : List String × ℕ) : List String × ℕ :=
  match od with
  | some d => extract_urls_from_items iv mr d p.1 p.2
  | none => p

/-- URL collection across the primary and secondary results (lines 364-380):
extract from the primary, then, when still under the cap, from the secondary. -/
def qwant_collect (iv : Bool) (mr : ℕ)
    (results secondary : Option QwantResponse) : List String :=
  let p := extract_stage iv mr (resp_items results) ([], 0)
  let q := if p.2 < mr then extract_stage iv mr (resp_items secondary) p else p
  q.1

/-- A value of the result dict: extracted page content, or the URL list
stored under the reserved `_urls` key. -/
inductive DictVal where
  | str (s : String)
  | urls (l : List String)
deriving DecidableEq

/-- `qwant_search` (lines 280-429): dispatch, URL collection, bounded-
concurrency fetch over the first `max_results` collected URLs, and assembly
of the result dict (insertion-ordered association list).  `asyncio.gather`
preserves task order, so the assembly loop observes the per-URL results in
URL order. -/
def qwant_search (search : String → ProviderCall) (gc : String → Bool → String)
    (query search_type : String) (mr : ℕ) : List (String × DictVal) :=
  let pr := qwant_dispatch search search_type
  let iv := is_video_query query search_type
  let allUrls := qwant_collect iv mr pr.1 pr.2
  let fetched := (allUrls.take mr).filterMap (fetch_url_with_semaphore gc iv)
  let pairs := fetched.filter (fun p => pyStrip p.2 ≠ "")
  pairs.map (fun p => (p.1, DictVal.str p.2)) ++
    [("_urls", DictVal.urls (pairs.map Prod.fst))]

/-- The string-content entries of the result dict (everything except the
reserved `_urls` list). -/
def contentPairs (d : List (String × DictVal)) : List (String × String) :=
  d.filterMap (fun p =>
    match p.2 with
    | DictVal.str s => some (p.1, s)
    | DictVal.urls _ => none)

/-- The guard of the endpoint's 404 branch (line 712): `if not search_results`,
i.e. Python falsiness = emptiness of the returned dict. -/
def endpoint_no_results_guard (d : List (String × DictVal)) : Bool := d.isEmpty

/-- Boolean form of the cache invariant: every cached content strips nonempty. -/
def cacheOk (cache : ContentCache) : Bool :=
  cache.all (fun kv => decide (pyStrip kv.2 ≠ ""))

/-- Boolean form of the result invariant: every content entry strips nonempty. -/
def pairsOk (l : List (String × String)) : Bool :=
  l.all (fun p => decide (pyStrip p.2 ≠ ""))

/-! ## Lemmas: rate limiter -/

/-- The head surviving `dropWhile` fails the predicate. -/
theorem dropWhile_eq_cons_head_false {α : Type} (p : α → Bool) :
    ∀ (l : List α) (a : α) (t : List α), l.dropWhile p = a :: t → p a = false := by
  intro l
  induction l with
  | nil => intro a t h; simp [List.dropWhile] at h
  | cons x xs ih =>
    intro a t h
    rw [List.dropWhile_cons] at h
    by_cases hx : p x
    · rw [if_pos hx] at h
      exact ih a t h
    · rw [if_neg hx] at h
      cases h
      simpa using hx

/-- With an empty token deque and zero requested tokens, `can_make_request`
reduces to the request-window test. -/
theorem can_make_request_fst (rpm tpm : ℕ) (ts : List ℚ) (c : ℚ) :
    (RateLimiter.can_make_request ⟨rpm, tpm, ts, []⟩ c 0).1
      = decide ((cleanOldEntries c ts).length < rpm) := by
  simp [RateLimiter.can_make_request, cleanOldEntries]

/-- Timestamps expired at time `c` are outside every trailing window ending
at `T ≥ c`, so the window count is bounded by the pruned deque's length. -/
theorem windowCount_le_clean_length (ts : List ℚ) (c T : ℚ) (hcT : c ≤ T) :
    windowCount ts T ≤ (cleanOldEntries c ts).length := by
  have hsplit := List.takeWhile_append_dropWhile
    (p := fun x => decide ((60 : ℚ) ≤ c - x)) (l := ts)
  have hexp : windowCount ts T
      = ((ts.takeWhile (fun x => decide ((60 : ℚ) ≤ c - x))).countP (inWindow T)
        + (ts.dropWhile (fun x => decide ((60 : ℚ) ≤ c - x))).countP (inWindow T)) := by
    rw [windowCount, ← List.countP_append, hsplit]
  have hz : (ts.takeWhile (fun x => decide ((60 : ℚ) ≤ c - x))).countP (inWindow T) = 0 := by
    rw [List.countP_eq_zero]
    intro x hx
    have hpx : (60 : ℚ) ≤ c - x :=
      of_decide_eq_true (List.mem_takeWhile_imp (p := fun x => decide ((60 : ℚ) ≤ c - x)) hx)
    simp only [inWindow, decide_eq_true_eq, not_and, not_lt]
    intro _
    linarith
  have hle : (ts.dropWhile (fun x => decide ((60 : ℚ) ≤ c - x))).countP (inWindow T)
      ≤ (cleanOldEntries c ts).length := List.countP_le_length _
  omega

/-- Definitional unfolding of `windowCount`. -/
theorem windowCount_def (ts : List ℚ) (T : ℚ) :
    windowCount ts T = ts.countP (inWindow T) := rfl

/-- Core invariant of the sequential `with_retries` calling discipline: the
recorded timestamps are sorted and every trailing 60-second window holds at
most `rpm_limit` of them. -/
theorem trace_sorted_and_bound {rpm tpm : ℕ} {ts : List ℚ}
    (h : WrapperTrace rpm tpm ts) :
    List.Sorted (· ≤ ·) ts ∧ ∀ T, windowCount ts T ≤ rpm := by
  induction h with
  | nil => exact ⟨List.sorted_nil, fun T => by simp [windowCount]⟩
  | @ok ts c r prev hmono hcheck hcr ih =>
    rcases ih with ⟨ihs, ihb⟩
    have hlen : (cleanOldEntries c ts).length < rpm := by
      rw [can_make_request_fst] at hcheck
      exact of_decide_eq_true hcheck
    constructor
    · refine List.pairwise_append.mpr ⟨ihs, List.pairwise_singleton _ _, ?_⟩
      intro x hx y hy
      rw [List.mem_singleton] at hy
      subst hy
      exact le_trans (hmono x hx) hcr
    · intro T
      cases hr : inWindow T r
      · have hT : windowCount (ts ++ [r]) T = windowCount ts T := by
          simp [windowCount_def, List.countP_append, List.countP_cons, hr]
        rw [hT]
        exact ihb T
      · have hT : windowCount (ts ++ [r]) T = windowCount ts T + 1 := by
          simp [windowCount_def, List.countP_append, List.countP_cons, hr]
        rw [hT]
        have hrT : r ≤ T ∧ T - r < 60 := of_decide_eq_true hr
        have hcT : c ≤ T := le_trans hcr hrT.1
        have hb := windowCount_le_clean_length ts c T hcT
        omega
  | @wait ts c r o rest prev hmono hcheck hclean hor ih =>
    rcases ih with ⟨ihs, ihb⟩
    have hclean' : ts.dropWhile (fun x => decide ((60 : ℚ) ≤ c - x)) = o :: rest := hclean
    have hofresh := dropWhile_eq_cons_head_false _ ts o rest hclean'
    have hco : c - o < 60 := by
      have hn := of_decide_eq_false hofresh
      linarith [not_le.mp hn]
    have hsub : List.Sublist (o :: rest) ts := by
      rw [← hclean']
      exact List.dropWhile_sublist _
    have ho_mem : o ∈ ts := hsub.subset (List.mem_cons_self o rest)
    have hcr : c ≤ r := by
      have := hmono o ho_mem
      linarith
    have hsorted_clean : List.Pairwise (· ≤ ·) (o :: rest) :=
      List.Pairwise.sublist hsub ihs
    have ho_le : ∀ x ∈ rest, o ≤ x := (List.pairwise_cons.mp hsorted_clean).1
    have hclean_le : (o :: rest).length ≤ rpm := by
      have hall : ∀ x ∈ (o :: rest), inWindow c x = true := by
        intro x hx
        have hxts : x ∈ ts := hsub.subset hx
        have hx_le_c : x ≤ c := hmono x hxts
        have hox : o ≤ x := by
          rcases List.mem_cons.mp hx with h | h
          · exact le_of_eq h.symm
          · exact ho_le x h
        have hcx : c - x < 60 := by linarith
        exact decide_eq_true ⟨hx_le_c, hcx⟩
      have h1 : (o :: rest).countP (inWindow c) = (o :: rest).length :=
        List.countP_eq_length.mpr hall
      have h2 : (o :: rest).countP (inWindow c) ≤ ts.countP (inWindow c) :=
        hsub.countP_le _
      have h3 := ihb c
      rw [windowCount_def] at h3
      omega
    constructor
    · refine List.pairwise_append.mpr ⟨ihs, List.pairwise_singleton _ _, ?_⟩
      intro x hx y hy
      rw [List.mem_singleton] at hy
      subst hy
      exact le_trans (hmono x hx) hcr
    · intro T
      cases hr : inWindow T r
      · have hT : windowCount (ts ++ [r]) T = windowCount ts T := by
          simp [windowCount_def, List.countP_append, List.countP_cons, hr]
        rw [hT]
        exact ihb T
      · have hT : windowCount (ts ++ [r]) T = windowCount ts T + 1 := by
          simp [windowCount_def, List.countP_append, List.countP_cons, hr]
        rw [hT]
        have hrT : r ≤ T ∧ T - r < 60 := of_decide_eq_true hr
        have hmonoP : ts.countP (inWindow T) ≤ ts.countP (fun x => decide (o < x)) := by
          apply List.countP_mono_left
          intro x _ hx
          have hx' : x ≤ T ∧ T - x < 60 := of_decide_eq_true hx
          have hox : o < x := by linarith [hrT.1, hrT.2, hx'.1, hx'.2, hor]
          exact decide_eq_true hox
        have hgt : ts.countP (fun x => decide (o < x)) ≤ rest.length := by
          have hsplit := List.takeWhile_append_dropWhile
            (p := fun x => decide ((60 : ℚ) ≤ c - x)) (l := ts)
          have hexp : ts.countP (fun x => decide (o < x))
              = ((ts.takeWhile (fun x => decide ((60 : ℚ) ≤ c - x))).countP
                  (fun x => decide (o < x))
                + (o :: rest).countP (fun x => decide (o < x))) := by
            rw [← hclean', ← List.countP_append, hsplit]
          have hz : (ts.takeWhile (fun x => decide ((60 : ℚ) ≤ c - x))).countP
              (fun x => decide (o < x)) = 0 := by
            rw [List.countP_eq_zero]
            intro x hx
            have hpx : (60 : ℚ) ≤ c - x :=
              of_decide_eq_true
                (List.mem_takeWhile_imp (p := fun x => decide ((60 : ℚ) ≤ c - x)) hx)
            simp only [decide_eq_true_eq, not_lt]
            linarith
          have hoo : (decide (o < o)) = false := by simp
          have hco2 : (o :: rest).countP (fun x => decide (o < x)) ≤ rest.length := by
            simp only [List.countP_cons, hoo]
            simpa using List.countP_le_length (p := fun x => decide (o < x)) (l := rest)
          omega
        have hlen : (o :: rest).length = rest.length + 1 := by simp
        rw [windowCount_def]
        omega

/-! ## Lemmas: URL collection -/

/-- Once the cap is reached, collection is a no-op. -/
theorem collectUrls_stop (iv : Bool) (mr : ℕ) (s : List String)
    (urls : List String) (count : ℕ) (h : mr ≤ count) :
    collectUrls iv mr s urls count = (urls, count) := by
  cases s with
  | nil => rfl
  | cons u rest => simp [collectUrls, h]

/-- Collection over a concatenated stream processes the two parts in order. -/
theorem collectUrls_append (iv : Bool) (mr : ℕ) (s₁ : List String) :
    ∀ (s₂ urls : List String) (count : ℕ),
      collectUrls iv mr (s₁ ++ s₂) urls count
        = (collectUrls iv mr s₂
            (collectUrls iv mr s₁ urls count).1
            (collectUrls iv mr s₁ urls count).2) := by
  induction s₁ with
  | nil => intro s₂ urls count; rfl
  | cons u rest ih =>
    intro s₂ urls count
    by_cases hmr : mr ≤ count
    · rw [collectUrls_stop iv mr (u :: rest) urls count hmr]
      simp only [List.cons_append, collectUrls, if_pos hmr]
      exact (collectUrls_stop iv mr s₂ urls count hmr).symm
    · by_cases he : eligibleUrl iv u = true
      · by_cases hu : u ∈ urls
        · simp only [List.cons_append, collectUrls, if_neg hmr, he,
            Bool.not_true, Bool.false_eq_true, if_false, if_pos hu]
          exact ih s₂ urls count
        · simp only [List.cons_append, collectUrls, if_neg hmr, he,
            Bool.not_true, Bool.false_eq_true, if_false, if_neg hu]
          exact ih s₂ (urls ++ [u]) (count + 1)
      · rw [Bool.not_eq_true] at he
        simp only [List.cons_append, collectUrls, if_neg hmr, he, Bool.not_false, if_true]
        exact ih s₂ urls count

/-- The inner sub-item loop is collection over the sub-items' URL stream. -/
theorem subLoop_eq_collect (iv : Bool) (mr : ℕ) (subs : List SubItem) :
    ∀ (urls : List String) (count : ℕ),
      subLoop iv mr subs urls count
        = collectUrls iv mr (subs.filterMap SubItem.url) urls count := by
  induction subs with
  | nil => intro urls count; rfl
  | cons s rest ih =>
    intro urls count
    by_cases hmr : mr ≤ count
    · rw [collectUrls_stop iv mr _ urls count hmr]
      simp [subLoop, hmr]
    · cases hs : s.url with
      | none =>
        have hstream : List.filterMap SubItem.url (s :: rest)
            = List.filterMap SubItem.url rest := by
          simp [List.filterMap_cons, hs]
        rw [hstream]
        simp only [subLoop, if_neg hmr, hs]
        exact ih urls count
      | some u =>
        have hstream : List.filterMap SubItem.url (s :: rest)
            = u :: List.filterMap SubItem.url rest := by
          simp [List.filterMap_cons, hs]
        rw [hstream]
        simp only [subLoop, if_neg hmr, hs]
        by_cases he : eligibleUrl iv u = true
        · by_cases hu : u ∈ urls
          · simp only [collectUrls, if_neg hmr, he, Bool.not_true, Bool.false_eq_true,
              if_false, if_pos hu]
            exact ih urls count
          · simp only [collectUrls, if_neg hmr, he, Bool.not_true, Bool.false_eq_true,
              if_false, if_neg hu]
            exact ih (urls ++ [u]) (count + 1)
        · rw [Bool.not_eq_true] at he
          simp only [collectUrls, if_neg hmr, he, Bool.not_false, if_true]
          exact ih urls count

/-- The item loop is collection over the flattened URL stream. -/
theorem extractLoop_eq_collect (iv : Bool) (mr : ℕ) (items : List Item) :
    ∀ (urls : List String) (count : ℕ),
      extractLoop iv mr items urls count
        = collectUrls iv mr (urlStream items) urls count := by
  induction items with
  | nil => intro urls count; rfl
  | cons i rest ih =>
    intro urls count
    by_cases hmr : mr ≤ count
    · rw [collectUrls_stop iv mr _ urls count hmr]
      simp [extractLoop, hmr]
    · cases hiu : i.url with
      | some u =>
        have hstream : urlStream (i :: rest) = u :: urlStream rest := by
          rw [urlStream, hiu]
        rw [hstream]
        by_cases he : eligibleUrl iv u = true
        · by_cases hu : u ∈ urls
          · simp only [extractLoop, collectUrls, if_neg hmr, hiu, he, Bool.not_true,
              Bool.false_eq_true, if_false, if_pos hu]
            exact ih urls count
          · simp only [extractLoop, collectUrls, if_neg hmr, hiu, he, Bool.not_true,
              Bool.false_eq_true, if_false, if_neg hu]
            exact ih (urls ++ [u]) (count + 1)
        · rw [Bool.not_eq_true] at he
          simp only [extractLoop, collectUrls, if_neg hmr, hiu, he, Bool.not_false, if_true]
          exact ih urls count
      | none =>
        cases hii : i.items with
        | some subs =>
          have hstream : urlStream (i :: rest)
              = subs.filterMap SubItem.url ++ urlStream rest := by
            rw [urlStream, hiu, hii]
          rw [hstream, collectUrls_append]
          simp only [extractLoop, if_neg hmr, hiu, hii]
          rw [subLoop_eq_collect]
          exact ih _ _
        | none =>
          have hstream : urlStream (i :: rest) = urlStream rest := by
            rw [urlStream, hiu, hii]
          rw [hstream]
          simp only [extractLoop, if_neg hmr, hiu, hii]
          exact ih urls count

/-- `extract_urls_from_items` as collection over the URL stream of the
(unwrapped) item list. -/
theorem extract_urls_eq_collect (iv : Bool) (mr : ℕ) (d : ItemsData)
    (urls : List String) (count : ℕ) :
    extract_urls_from_items iv mr d urls count
      = collectUrls iv mr (urlStream (itemsDataList d)) urls count := by
  cases d with
  | flat items =>
    cases items with
    | nil => rfl
    | cons i rest => exact extractLoop_eq_collect iv mr (i :: rest) urls count
  | mainline items => exact extractLoop_eq_collect iv mr items urls count

/-- `urlStream` distributes over list concatenation. -/
theorem urlStream_append (l₁ l₂ : List Item) :
    urlStream (l₁ ++ l₂) = urlStream l₁ ++ urlStream l₂ := by
  induction l₁ with
  | nil => rfl
  | cons i rest ih =>
    cases hiu : i.url with
    | some u => simp [urlStream, hiu, ih]
    | none =>
      cases hii : i.items with
      | some subs => simp [urlStream, hiu, hii, ih]
      | none => simp [urlStream, hiu, hii, ih]

/-- The URL stream of sub-items promoted to plain items. -/
theorem urlStream_map_leaf (subs : List SubItem) :
    urlStream (subs.map (fun s => (⟨s.url, none⟩ : Item)))
      = subs.filterMap SubItem.url := by
  induction subs with
  | nil => rfl
  | cons s rest ih =>
    cases hs : s.url with
    | some u => simp [urlStream, List.filterMap_cons, hs, ih]
    | none => simp [urlStream, List.filterMap_cons, hs, ih]

/-- Flattening the nested item shape does not change the URL stream. -/
theorem urlStream_flatten (items : List Item) :
    urlStream (flattenItems items) = urlStream items := by
  induction items with
  | nil => rfl
  | cons i rest ih =>
    cases hiu : i.url with
    | some u =>
      rw [flattenItems, hiu]
      rw [urlStream, urlStream, hiu]
      simp only [ih]
    | none =>
      cases hii : i.items with
      | some subs =>
        rw [flattenItems, hiu, hii]
        rw [urlStream, hiu, hii]
        rw [urlStream_append, urlStream_map_leaf, ih]
      | none =>
        rw [flattenItems, hiu, hii]
        rw [urlStream, hiu, hii]
        exact ih

/-- Number of distinct URLs of a stream that are eligible and not yet collected. -/
def newCount (iv : Bool) (s : List String) (urls : List String) : ℕ :=
  ((s.filter (fun u => eligibleUrl iv u && decide (u ∉ urls))).toFinset).card

/-- Collection keeps the count equal to the collected-list length. -/
theorem collectUrls_count (iv : Bool) (mr : ℕ) (s : List String) :
    ∀ (urls : List String) (count : ℕ), count = urls.length →
      (collectUrls iv mr s urls count).2 = (collectUrls iv mr s urls count).1.length := by
  induction s with
  | nil => intro urls count h; simpa [collectUrls] using h
  | cons u rest ih =>
    intro urls count h
    by_cases hmr : mr ≤ count
    · rw [collectUrls_stop iv mr _ urls count hmr]
      simpa using h
    · by_cases he : eligibleUrl iv u = true
      · by_cases hu : u ∈ urls
        · simp only [collectUrls, if_neg hmr, he, Bool.not_true, Bool.false_eq_true,
            if_false, if_pos hu]
          exact ih urls count h
        · simp only [collectUrls, if_neg hmr, he, Bool.not_true, Bool.false_eq_true,
            if_false, if_neg hu]
          exact ih (urls ++ [u]) (count + 1) (by simp [h])
      · rw [Bool.not_eq_true] at he
        simp only [collectUrls, if_neg hmr, he, Bool.not_false, if_true]
        exact ih urls count h

/-- Collection never introduces duplicates. -/
theorem collectUrls_nodup (iv : Bool) (mr : ℕ) (s : List String) :
    ∀ (urls : List String) (count : ℕ), urls.Nodup →
      (collectUrls iv mr s urls count).1.Nodup := by
  induction s with
  | nil => intro urls count h; simpa [collectUrls] using h
  | cons u rest ih =>
    intro urls count h
    by_cases hmr : mr ≤ count
    · rw [collectUrls_stop iv mr _ urls count hmr]
      simpa using h
    · by_cases he : eligibleUrl iv u = true
      · by_cases hu : u ∈ urls
        · simp only [collectUrls, if_neg hmr, he, Bool.not_true, Bool.false_eq_true,
            if_false, if_pos hu]
          exact ih urls count h
        · simp only [collectUrls, if_neg hmr, he, Bool.not_true, Bool.false_eq_true,
            if_false, if_neg hu]
          refine ih (urls ++ [u]) (count + 1) ?_
          simp [List.nodup_append, h, hu]
      · rw [Bool.not_eq_true] at he
        simp only [collectUrls, if_neg hmr, he, Bool.not_false, if_true]
        exact ih urls count h

/-- Appending a fresh eligible URL trades one unit of `newCount`. -/
theorem newCount_cons_new (iv : Bool) (u : String) (rest urls : List String)
    (he : eligibleUrl iv u = true) (hu : u ∉ urls) :
    newCount iv (u :: rest) urls = newCount iv rest (urls ++ [u]) + 1 := by
  have hp : (eligibleUrl iv u && decide (u ∉ urls)) = true := by
    rw [he, decide_eq_true hu, Bool.true_and]
  have hfilter : (u :: rest).filter (fun v => eligibleUrl iv v && decide (v ∉ urls))
      = u :: rest.filter (fun v => eligibleUrl iv v && decide (v ∉ urls)) := by
    rw [List.filter_cons, if_pos hp]
  set A := (rest.filter (fun v => eligibleUrl iv v && decide (v ∉ urls))).toFinset with hA
  have hBA : (rest.filter (fun v => eligibleUrl iv v && decide (v ∉ urls ++ [u]))).toFinset
      = A.erase u := by
    ext x
    simp only [hA, List.mem_toFinset, List.mem_filter, Finset.mem_erase,
      Bool.and_eq_true, decide_eq_true_eq, List.mem_append, List.mem_singleton]
    constructor
    · rintro ⟨hxr, hel, hnm⟩
      push_neg at hnm
      exact ⟨hnm.2, hxr, hel, hnm.1⟩
    · rintro ⟨hne, hxr, hel, hnm⟩
      refine ⟨hxr, hel, ?_⟩
      push_neg
      exact ⟨hnm, hne⟩
  rw [newCount, newCount, hfilter, List.toFinset_cons, hBA, ← hA]
  by_cases hmem : u ∈ A
  · rw [Finset.card_insert_of_mem hmem, ← Finset.card_erase_add_one hmem]
  · rw [Finset.card_insert_of_not_mem hmem, Finset.erase_eq_of_not_mem hmem]

/-- A skipped URL (ineligible or already collected) does not change `newCount`. -/
theorem newCount_cons_skip (iv : Bool) (u : String) (rest urls : List String)
    (h : (eligibleUrl iv u && decide (u ∉ urls)) = false) :
    newCount iv (u :: rest) urls = newCount iv rest urls := by
  rw [newCount, newCount, List.filter_cons, if_neg (by rw [h]; simp)]

/-- The count after collection is the cap-clipped number of new distinct
eligible URLs in the stream. -/
theorem collectUrls_min (iv : Bool) (mr : ℕ) (s : List String) :
    ∀ (urls : List String) (count : ℕ), count ≤ mr →
      (collectUrls iv mr s urls count).2 = min mr (count + newCount iv s urls) := by
  induction s with
  | nil =>
    intro urls count h
    simp [collectUrls, newCount, Nat.min_eq_right h]
  | cons u rest ih =>
    intro urls count h
    by_cases hmr : mr ≤ count
    · have hcm : count = mr := le_antisymm h hmr
      rw [collectUrls_stop iv mr _ urls count hmr]
      subst hcm
      simp
    · by_cases he : eligibleUrl iv u = true
      · by_cases hu : u ∈ urls
        · simp only [collectUrls, if_neg hmr, he, Bool.not_true, Bool.false_eq_true,
            if_false, if_pos hu]
          rw [ih urls count h, newCount_cons_skip iv u rest urls (by simp [he, hu])]
        · simp only [collectUrls, if_neg hmr, he, Bool.not_true, Bool.false_eq_true,
            if_false, if_neg hu]
          rw [ih (urls ++ [u]) (count + 1) (Nat.succ_le_of_lt (lt_of_not_ge hmr)),
            newCount_cons_new iv u rest urls he hu]
          omega
      · rw [Bool.not_eq_true] at he
        simp only [collectUrls, if_neg hmr, he, Bool.not_false, if_true]
        rw [ih urls count h, newCount_cons_skip iv u rest urls (by simp [he])]

/-! ## Lemmas: strings and stripping -/

/-- An element failing the predicate survives `dropWhile`. -/
theorem mem_dropWhile_of_not {α : Type} (p : α → Bool) (l : List α) (c : α)
    (hc : c ∈ l) (hpc : p c = false) : c ∈ l.dropWhile p := by
  have hsplit := List.takeWhile_append_dropWhile (p := p) (l := l)
  rw [← hsplit] at hc
  rcases List.mem_append.mp hc with h | h
  · have := List.mem_takeWhile_imp (p := p) h
    rw [hpc] at this
    cases this
  · exact h

/-- A non-whitespace character survives stripping. -/
theorem mem_stripChars (l : List Char) (c : Char) (hc : c ∈ l)
    (hw : c.isWhitespace = false) : c ∈ stripChars l := by
  unfold stripChars
  apply List.mem_reverse.mpr
  apply mem_dropWhile_of_not _ _ _ _ hw
  apply List.mem_reverse.mpr
  exact mem_dropWhile_of_not _ _ _ hc hw

/-- A string containing a non-whitespace character strips to a nonempty string. -/
theorem pyStrip_ne_empty (s : String) (c : Char) (hc : c ∈ s.data)
    (hw : c.isWhitespace = false) : pyStrip s ≠ "" := by
  intro h
  have hdata : stripChars s.data = [] := congrArg String.data h
  have := mem_stripChars s.data c hc hw
  rw [hdata] at this
  cases this

/-- A character not occurring in the pattern survives `replaceCharsAux`. -/
theorem mem_replaceCharsAux (pat rep : List Char) (c : Char) (hcp : c ∉ pat) :
    ∀ (fuel : ℕ) (l : List Char), c ∈ l → c ∈ replaceCharsAux pat rep fuel l := by
  intro fuel
  induction fuel with
  | zero =>
    intro l hc
    cases l with
    | nil => cases hc
    | cons x rest => exact hc
  | succ n ih =>
    intro l hc
    cases l with
    | nil => cases hc
    | cons x rest =>
      rw [replaceCharsAux]
      by_cases hmatch : pat ≠ [] ∧ pat.isPrefixOf (x :: rest)
      · rw [if_pos hmatch]
        have hpre : pat ++ (x :: rest).drop pat.length = x :: rest :=
          List.prefix_iff_eq_append.mp (List.isPrefixOf_iff_prefix.mp hmatch.2)
        apply List.mem_append_right
        apply ih
        rcases List.mem_append.mp (by rw [hpre]; exact hc) with h | h
        · exact absurd h hcp
        · exact h
      · rw [if_neg hmatch]
        rcases List.mem_cons.mp hc with h | h
        · exact h ▸ List.mem_cons_self _ _
        · exact List.mem_cons_of_mem _ (ih rest h)

/-- A character not occurring in the pattern survives `replaceChars`. -/
theorem mem_replaceChars (pat rep : List Char) (c : Char) (hcp : c ∉ pat)
    (l : List Char) (hc : c ∈ l) : c ∈ replaceChars pat rep l :=
  mem_replaceCharsAux pat rep c hcp l.length l hc

/-- A character not occurring in the pattern survives `strReplace`. -/
theorem mem_strReplace (s pat rep : String) (c : Char) (hcp : c ∉ pat.data)
    (hc : c ∈ s.data) : c ∈ (strReplace s pat rep).data :=
  mem_replaceChars pat.data rep.data c hcp s.data hc

/-- `get_youtube_transcript` returns either the empty string or a string
starting with the `[Transcript] ` marker. -/
theorem get_youtube_transcript_shape (yt : YtOracle) :
    get_youtube_transcript yt = "" ∨
      ∃ x, get_youtube_transcript yt = "[Transcript] " ++ x := by
  simp only [get_youtube_transcript]
  cases hl : yt.listOk
  · simp
  · simp only [Bool.not_true, Bool.false_eq_true, if_false]
    cases hct : chosenTranscript yt with
    | none => simp
    | some t =>
      cases hf : t.fetchResult with
      | none => simp [hf]
      | some entries =>
        right
        refine ⟨" ".intercalate (entries.map cleanTranscriptEntry), ?_⟩
        simp [hf]

/-- A nonempty transcript always carries the capital `T` of its
`[Transcript]` marker. -/
theorem transcript_has_T (yt : YtOracle) (h : get_youtube_transcript yt ≠ "") :
    'T' ∈ (get_youtube_transcript yt).data := by
  rcases get_youtube_transcript_shape yt with h0 | ⟨x, hx⟩
  · exact absurd h0 h
  · rw [hx, String.data_append]
    apply List.mem_append_left
    decide

/-! ## Lemmas: content caching and assembly -/

/-- The generic web path never writes an empty-stripping entry. -/
theorem get_content_web_cacheOk (web : WebFetchOutcome) (key : String × Bool)
    (cache : ContentCache) (h : cacheOk cache = true) :
    cacheOk (get_content_web web key cache).2 = true := by
  cases web with
  | fail => exact h
  | parsed fragments =>
    simp only [get_content_web]
    by_cases hne : pyStrip (if 10000 < (" ".intercalate fragments).length
        then (" ".intercalate fragments).take 10000 ++ "..."
        else " ".intercalate fragments) ≠ ""
    · rw [if_pos hne]
      simp only [cacheOk, List.all_cons, Bool.and_eq_true]
      exact ⟨decide_eq_true hne, h⟩
    · rw [if_neg hne]
      exact h

/-- The nonempty transcript write strips to a nonempty string: the
`[Transcript]` marker's `T` survives both character replacements and the
final strip. -/
theorem cleaned_transcript_ne_empty (yt : YtOracle)
    (h : get_youtube_transcript yt ≠ "") :
    pyStrip (strReplace (strReplace (get_youtube_transcript yt) "\x22" apos) "\x5c" "") ≠ "" := by
  have hT := transcript_has_T yt h
  have h1 : 'T' ∈ (strReplace (get_youtube_transcript yt) "\x22" apos).data :=
    mem_strReplace _ _ _ _ (by decide) hT
  have h2 : 'T' ∈ (strReplace (strReplace (get_youtube_transcript yt) "\x22" apos) "\x5c" "").data :=
    mem_strReplace _ _ _ _ (by decide) h1
  exact pyStrip_ne_empty _ 'T' h2 (by decide)

/-- The cached transcript value itself strips to nonempty (it is already a
stripped string containing the marker's `T`). -/
theorem cleaned_transcript_strip_ne_empty (yt : YtOracle)
    (h : get_youtube_transcript yt ≠ "") :
    pyStrip (pyStrip (strReplace (strReplace (get_youtube_transcript yt) "\x22" apos) "\x5c" "")) ≠ "" := by
  have hT := transcript_has_T yt h
  have h1 : 'T' ∈ (strReplace (get_youtube_transcript yt) "\x22" apos).data :=
    mem_strReplace _ _ _ _ (by decide) hT
  have h2 : 'T' ∈ (strReplace (strReplace (get_youtube_transcript yt) "\x22" apos) "\x5c" "").data :=
    mem_strReplace _ _ _ _ (by decide) h1
  have h3 : 'T' ∈ (pyStrip (strReplace (strReplace (get_youtube_transcript yt) "\x22" apos) "\x5c" "")).data :=
    mem_stripChars _ 'T' h2 (by decide)
  exact pyStrip_ne_empty _ 'T' h3 (by decide)

/-- `get_content` preserves the cache invariant: no write ever stores a
string that strips to empty. -/
theorem get_content_cacheOk (cache : ContentCache) (yt : YtOracle)
    (web : WebFetchOutcome) (url : String) (iv : Bool)
    (h : cacheOk cache = true) :
    cacheOk (get_content cache yt web url iv).2 = true := by
  unfold get_content
  cases hcl : cacheLookup cache (url, iv) with
  | some v =>
    simp only [hcl]
    exact h
  | none =>
    simp only [hcl]
    cases hid : extract_youtube_id url with
    | none =>
      simp only [hid]
      exact get_content_web_cacheOk web (url, iv) cache h
    | some vid =>
      simp only [hid]
      cases iv with
      | false =>
        simp only [Bool.false_eq_true, if_false]
        exact h
      | true =>
        simp only [if_true]
        by_cases ht : get_youtube_transcript yt ≠ ""
        · rw [if_pos ht]
          simp only [cacheOk, List.all_cons, Bool.and_eq_true]
          exact ⟨decide_eq_true (cleaned_transcript_strip_ne_empty yt ht), h⟩
        · rw [if_neg ht]
          exact get_content_web_cacheOk web (url, true) cache h

/-- The content entries of an assembled result dict are exactly the fetched
pairs; the `_urls` entry contributes nothing. -/
theorem contentPairs_assembled (pairs : List (String × String)) (l : List String) :
    contentPairs (pairs.map (fun p => (p.1, DictVal.str p.2))
        ++ [("_urls", DictVal.urls l)]) = pairs := by
  induction pairs with
  | nil => rfl
  | cons p rest ih =>
    simp only [List.map_cons, List.cons_append, contentPairs, List.filterMap_cons] at ih ⊢
    rw [ih]

/-- The content entries of a `qwant_search` result are the accepted fetched
pairs over the first `max_results` collected URLs. -/
theorem contentPairs_qwant (search : String → ProviderCall) (gc : String → Bool → String)
    (query search_type : String) (mr : ℕ) :
    contentPairs (qwant_search search gc query search_type mr)
      = (((qwant_collect (is_video_query query search_type) mr
            (qwant_dispatch search search_type).1
            (qwant_dispatch search search_type).2).take mr).filterMap
          (fetch_url_with_semaphore gc (is_video_query query search_type))).filter
          (fun p => decide (pyStrip p.2 ≠ "")) := by
  unfold qwant_search
  exact contentPairs_assembled _ _

/-- Every content entry of a `qwant_search` result strips to nonempty. -/
theorem qwant_search_pairsOk (search : String → ProviderCall)
    (gc : String → Bool → String) (query search_type : String) (mr : ℕ) :
    pairsOk (contentPairs (qwant_search search gc query search_type mr)) = true := by
  rw [contentPairs_qwant]
  rw [pairsOk, List.all_eq_true]
  intro p hp
  exact (List.mem_filter.mp hp).2

/-- The result dict of `qwant_search` always ends with the `_urls` entry. -/
theorem qwant_search_urls_entry (search : String → ProviderCall)
    (gc : String → Bool → String) (query search_type : String) (mr : ℕ) :
    "_urls" ∈ (qwant_search search gc query search_type mr).map Prod.fst := by
  unfold qwant_search
  rw [List.map_append]
  apply List.mem_append_right
  simp

/-- Content-entry count is capped by `max_results`. -/
theorem contentPairs_qwant_le (search : String → ProviderCall)
    (gc : String → Bool → String) (query search_type : String) (mr : ℕ) :
    (contentPairs (qwant_search search gc query search_type mr)).length ≤ mr := by
  rw [contentPairs_qwant]
  calc ((((qwant_collect (is_video_query query search_type) mr
            (qwant_dispatch search search_type).1
            (qwant_dispatch search search_type).2).take mr).filterMap
          (fetch_url_with_semaphore gc (is_video_query query search_type))).filter
          (fun p => decide (pyStrip p.2 ≠ ""))).length
      ≤ (((qwant_collect (is_video_query query search_type) mr
            (qwant_dispatch search search_type).1
            (qwant_dispatch search search_type).2).take mr).filterMap
          (fetch_url_with_semaphore gc (is_video_query query search_type))).length :=
        List.length_filter_le _ _
    _ ≤ ((qwant_collect (is_video_query query search_type) mr
            (qwant_dispatch search search_type).1
            (qwant_dispatch search search_type).2).take mr).length :=
        List.length_filterMap_le _ _
    _ ≤ mr := by
        rw [List.length_take]
        exact min_le_left _ _

/-- With no already-collected URLs, `newCount` coincides with the distinct
eligible-URL count of the stream. -/
theorem newCount_nil_urls (iv : Bool) (s : List String) :
    newCount iv s [] = (s.filter (fun u => eligibleUrl iv u)).toFinset.card := by
  rw [newCount]
  congr 2
  apply List.filter_congr
  intro u _
  simp

/-- An extraction stage preserves the no-duplicates property. -/
theorem extract_stage_nodup (iv : Bool) (mr : ℕ) (od : Option ItemsData)
    (p : List String × ℕ) (h : p.1.Nodup) : (extract_stage iv mr od p).1.Nodup := by
  cases od with
  | some d =>
    show (extract_urls_from_items iv mr d p.1 p.2).1.Nodup
    rw [extract_urls_eq_collect]
    exact collectUrls_nodup iv mr _ p.1 p.2 h
  | none => exact h

/-- Characterization of the collected URL list when the primary result alone
holds more distinct eligible URLs than the cap: collection stops at exactly
`max_results` distinct URLs. -/
theorem qwant_collect_exact (iv : Bool) (mr : ℕ) (d : ItemsData)
    (results secondary : Option QwantResponse)
    (hd : resp_items results = some d)
    (hm : mr < eligibleCount iv d) :
    (qwant_collect iv mr results secondary).length = mr := by
  have hcol := extract_urls_eq_collect iv mr d [] 0
  have hmin := collectUrls_min iv mr (urlStream (itemsDataList d)) [] 0 (Nat.zero_le mr)
  have hcnt := collectUrls_count iv mr (urlStream (itemsDataList d)) [] 0 rfl
  rw [newCount_nil_urls] at hmin
  have hcount2 : (extract_urls_from_items iv mr d [] 0).2 = mr := by
    rw [hcol, hmin]
    simp only [Nat.zero_add]
    rw [eligibleCount] at hm
    omega
  have hlen : (extract_urls_from_items iv mr d [] 0).1.length = mr := by
    rw [hcol] at hcount2 ⊢
    rw [← hcnt]
    exact hcount2
  have hstage : extract_stage iv mr (resp_items results) ([], 0)
      = extract_urls_from_items iv mr d [] 0 := by
    rw [hd]
    rfl
  simp only [qwant_collect]
  rw [hstage, hcount2, if_neg (lt_irrefl mr)]
  exact hlen

/-- The collected URL list never contains duplicates. -/
theorem qwant_collect_nodup (iv : Bool) (mr : ℕ)
    (results secondary : Option QwantResponse) :
    (qwant_collect iv mr results secondary).Nodup := by
  simp only [qwant_collect]
  by_cases hlt : (extract_stage iv mr (resp_items results) ([], 0)).2 < mr
  · rw [if_pos hlt]
    exact extract_stage_nodup _ _ _ _ (extract_stage_nodup _ _ _ _ List.nodup_nil)
  · rw [if_neg hlt]
    exact extract_stage_nodup _ _ _ _ List.nodup_nil

/-! ## Lemmas: dispatch, fallbacks and the wait computation -/

/-- Non-web dispatch with a successful typed search never re-issues: the
returned response is used as primary, with no secondary. -/
theorem qwant_dispatch_nonweb_returns (search : String → ProviderCall) (st : String)
    (r : QwantResponse) (hst : st ≠ "web") (h : search st = ProviderCall.returns r) :
    qwant_dispatch search st = (some r, none) := by
  unfold qwant_dispatch
  rw [if_neg hst, h]

/-- Non-web dispatch falls back to a web search only when the typed search
raises. -/
theorem qwant_dispatch_nonweb_fallback (search : String → ProviderCall) (st : String)
    (r : QwantResponse) (hst : st ≠ "web") (h : search st = ProviderCall.raises)
    (hw : search "web" = ProviderCall.returns r) :
    qwant_dispatch search st = (some r, none) := by
  unfold qwant_dispatch
  rw [if_neg hst, h, hw]

/-- When every provider call raises, dispatch yields no results at all. -/
theorem qwant_dispatch_allfail (search : String → ProviderCall) (st : String)
    (h : ∀ t, search t = ProviderCall.raises) :
    qwant_dispatch search st = (none, none) := by
  unfold qwant_dispatch
  by_cases hst : st = "web"
  · rw [if_pos hst, h "web", h "news"]
    rfl
  · rw [if_neg hst, h st, h "web"]

/-- Collection over absent results yields no URLs. -/
theorem qwant_collect_none_none (iv : Bool) (mr : ℕ) :
    qwant_collect iv mr none none = [] := by
  simp [qwant_collect, extract_stage, resp_items]

/-- When every provider call raises, the pipeline returns the bare `_urls`
entry with an empty URL list, and no `error` annotation. -/
theorem qwant_search_allfail (search : String → ProviderCall)
    (gc : String → Bool → String) (q st : String) (mr : ℕ)
    (h : ∀ t, search t = ProviderCall.raises) :
    qwant_search search gc q st mr = [("_urls", DictVal.urls [])] := by
  unfold qwant_search
  rw [qwant_dispatch_allfail search st h]
  simp [qwant_collect_none_none]

/-- The per-URL fetch returns nothing or a pair keyed by the original URL. -/
theorem fetch_url_trace_shape (gc : String → Bool → String) (iv : Bool) (url : String) :
    (fetch_url_trace gc iv url).1 = none ∨
      ∃ c, (fetch_url_trace gc iv url).1 = some (url, c) := by
  simp only [fetch_url_trace]
  split_ifs <;> simp

/-- A fetched pair is always keyed by the original URL, never by a rewritten
fallback URL. -/
theorem fetch_url_trace_fst (gc : String → Bool → String) (iv : Bool) (url : String)
    (p : String × String) (h : fetch_url_with_semaphore gc iv url = some p) :
    p.1 = url := by
  unfold fetch_url_with_semaphore at h
  rcases fetch_url_trace_shape gc iv url with h0 | ⟨c, hc⟩
  · rw [h0] at h
    cases h
  · rw [hc] at h
    obtain rfl : (url, c) = p := Option.some.inj h
    rfl

/-- The GitHub raw-mirror fallback result is delivered under the original URL. -/
theorem fetch_github_fallback (gc : String → Bool → String) (iv : Bool) (url : String)
    (h1 : contentOk (gc url iv) = false) (h2 : strContains url "github.com" = true)
    (h3 : contentOk (gc (githubRawUrl url) iv) = true) :
    fetch_url_with_semaphore gc iv url = some (url, gc (githubRawUrl url) iv) := by
  simp [fetch_url_with_semaphore, fetch_url_trace, h1, h2, h3]

/-- The first documentation-hostname fallback result is delivered under the
original URL. -/
theorem fetch_docs_fallback (gc : String → Bool → String) (iv : Bool) (url : String)
    (h1 : contentOk (gc url iv) = false) (h2 : strContains url "github.com" = false)
    (h3 : strContains url "docs." = true)
    (h4 : contentOk (gc (docsWwwUrl url) iv) = true) :
    fetch_url_with_semaphore gc iv url = some (url, gc (docsWwwUrl url) iv) := by
  simp [fetch_url_with_semaphore, fetch_url_trace, h1, h2, h3, h4]

/-- Each derived fallback URL is fetched at most once. -/
theorem fetch_url_trace_attempts (gc : String → Bool → String) (iv : Bool) (url : String)
    (hraw : githubRawUrl url ≠ url) (hw : docsWwwUrl url ≠ url)
    (hb : docsBareUrl url ≠ url) (hwb : docsWwwUrl url ≠ docsBareUrl url) :
    (fetch_url_trace gc iv url).2.count (githubRawUrl url) ≤ 1 ∧
    (fetch_url_trace gc iv url).2.count (docsWwwUrl url) ≤ 1 ∧
    (fetch_url_trace gc iv url).2.count (docsBareUrl url) ≤ 1 := by
  have hraw' := hraw.symm
  have hw' := hw.symm
  have hb' := hb.symm
  have hwb' := hwb.symm
  simp only [fetch_url_trace]
  split_ifs <;>
    refine ⟨?_, ?_, ?_⟩ <;>
    simp [List.count_cons, List.count_nil, beq_iff_eq, hraw, hw, hb, hwb,
      hraw', hw', hb', hwb'] <;>
    split_ifs <;>
    first
      | omega
      | simp_all

/-- The wait of one `with_retries` attempt after a failed limiter check is
`60 - (now - oldest)`, performed once before invoking, and never negative. -/
theorem with_retries_wait_formula (rl : RateLimiter) (now o : ℚ) (rest : List ℚ)
    (hfalse : (rl.can_make_request now 0).1 = false)
    (hhead : ((rl.can_make_request now 0).2).requests = o :: rest) :
    with_retries_attempt rl now = some (60 - (now - o)) ∧ 0 ≤ 60 - (now - o) := by
  have hclean : cleanOldEntries now rl.requests = o :: rest := hhead
  constructor
  · simp only [with_retries_attempt, hfalse, Bool.false_eq_true, if_false]
    rw [show ((rl.can_make_request now 0).2).requests = cleanOldEntries now rl.requests from rfl]
    rw [hclean]
  · have hof := dropWhile_eq_cons_head_false _ _ _ _ hclean
    have hno : ¬ ((60 : ℚ) ≤ now - o) := of_decide_eq_false hof
    linarith [not_le.mp hno]

/-- With no cached entry, a recognized video URL in a video search whose
transcript retrieval produced nothing falls through to the generic web-page
extraction path. -/
theorem get_content_video_fallthrough (cache : ContentCache) (yt : YtOracle)
    (web : WebFetchOutcome) (url vid : String)
    (hmiss : cacheLookup cache (url, true) = none)
    (hvid : extract_youtube_id url = some vid)
    (ht : get_youtube_transcript yt = "") :
    get_content cache yt web url true = get_content_web web (url, true) cache := by
  unfold get_content
  simp only [hmiss, hvid, if_true]
  rw [if_neg (show ¬ (get_youtube_transcript yt ≠ "") from fun hne => hne ht)]

/-- When no English transcript is available, the translated fallback is the
chosen transcript. -/
theorem chosenTranscript_of_no_en (yt : YtOracle) (h : yt.enTranscript = none) :
    chosenTranscript yt = yt.anyTranslated := by
  unfold chosenTranscript
  rw [h]

/-! ## Claim theorems -/

/-- C2: for every sequence of `can_make_request`/`add_request` calls made by
the `with_retries` wrapper (check; wait once if refused; invoke; record on
success), the number of recorded request timestamps inside any trailing
60-second window never exceeds `rpm_limit`. -/
theorem rate_limiter_window_bound {rpm tpm : ℕ} {ts : List ℚ}
    (h : WrapperTrace rpm tpm ts) (T : ℚ) : windowCount ts T ≤ rpm :=
  (trace_sorted_and_bound h).2 T

/-- Witness for C2: a concrete two-step wrapper trace under `rpm_limit = 1`,
checked at the window ending at time 61. -/
theorem rate_limiter_window_bound_witness :
    windowCount [(0 : ℚ), 61] 61 ≤ 1 := by
  have h0 : WrapperTrace 1 1000000 [(0 : ℚ)] := by
    have := @WrapperTrace.ok 1 1000000 [] 0 0
      WrapperTrace.nil (by intro x hx; cases hx)
      (by norm_num [RateLimiter.can_make_request, cleanOldEntries]) le_rfl
    simpa using this
  have h1 : WrapperTrace 1 1000000 [(0 : ℚ), 61] := by
    have := @WrapperTrace.wait 1 1000000 [(0 : ℚ)] 1 61 0 []
      h0 (by intro x hx; simp at hx; simp [hx])
      (by norm_num [RateLimiter.can_make_request, cleanOldEntries, List.dropWhile_cons])
      (by norm_num [cleanOldEntries, List.dropWhile_cons]) (by norm_num)
    simpa using this
  exact rate_limiter_window_bound h1 61

/-- C6: URL extraction over a `mainline`-wrapped item list yields exactly
the same output as extraction over the equivalent flattened item list, under
the same video-skip, deduplication, and cap rules. -/
theorem extract_urls_mainline_flatten_eq (iv : Bool) (mr : ℕ) (items : List Item)
    (urls : List String) (count : ℕ) :
    extract_urls_from_items iv mr (ItemsData.mainline items) urls count
      = extract_urls_from_items iv mr (ItemsData.flat (flattenItems items)) urls count := by
  rw [extract_urls_eq_collect, extract_urls_eq_collect]
  simp only [itemsDataList]
  rw [urlStream_flatten]

/-- C7: when `can_make_request` is false, a retry attempt performs exactly
one wait of `60 - (now - oldest)` seconds before invoking the operation, and
the computed wait duration is never negative. -/
theorem with_retries_single_wait (rl : RateLimiter) (now o : ℚ) (rest : List ℚ)
    (hfalse : (rl.can_make_request now 0).1 = false)
    (hhead : ((rl.can_make_request now 0).2).requests = o :: rest) :
    with_retries_attempt rl now = some (60 - (now - o)) ∧ 0 ≤ 60 - (now - o) :=
  with_retries_wait_formula rl now o rest hfalse hhead

/-- Witness for C7: a limiter at its cap with one request 30 seconds old
waits exactly 30 seconds. -/
theorem with_retries_single_wait_witness :
    with_retries_attempt ⟨1, 1000000, [0], []⟩ 30 = some 30 ∧ (0 : ℚ) ≤ 30 := by
  have h := with_retries_single_wait ⟨1, 1000000, [0], []⟩ 30 0 []
    (by norm_num [RateLimiter.can_make_request, cleanOldEntries, List.dropWhile_cons])
    (by norm_num [RateLimiter.can_make_request, cleanOldEntries, List.dropWhile_cons])
  constructor
  · rw [h.1]
    norm_num
  · norm_num

/-- C9: the acquisition pipeline's result dictionary always contains the
reserved `_urls` key — on success and failure paths alike — so it is never
empty and the endpoint's 404 guard (`if not search_results`) never fires. -/
theorem qwant_search_always_has_urls_key (search : String → ProviderCall)
    (gc : String → Bool → String) (query search_type : String) (mr : ℕ) :
    "_urls" ∈ (qwant_search search gc query search_type mr).map Prod.fst ∧
    endpoint_no_results_guard (qwant_search search gc query search_type mr) = false := by
  refine ⟨qwant_search_urls_entry search gc query search_type mr, ?_⟩
  unfold endpoint_no_results_guard qwant_search
  simp

/-- A truthy primary response with an empty item list collects no URLs. -/
theorem qwant_collect_empty_items (iv : Bool) (mr : ℕ) :
    qwant_collect iv mr (some ⟨true, some (ItemsData.flat [])⟩) none = [] := by
  simp [qwant_collect, extract_stage, resp_items, extract_urls_from_items]

/-- C1 counterexample: a news query against a provider that successfully
returns zero news items but has a web item yielding content produces an
empty content map — no web re-issue happens. -/
theorem news_zero_items_no_web_fallback_cex :
    contentPairs (qwant_search
        (fun t => if t = "news" then ProviderCall.returns ⟨true, some (ItemsData.flat [])⟩
          else ProviderCall.returns
            ⟨true, some (ItemsData.flat [⟨some "http://example.com/a", none⟩])⟩)
        (fun _ _ => "plenty of material") "latest news on X" "news" 6) = [] ∧
    fetch_url_with_semaphore (fun _ _ => "plenty of material") false "http://example.com/a"
      = some ("http://example.com/a", "plenty of material") := by
  exact ⟨by decide, by decide⟩

/-- C1 (amended): for a non-web search type the pipeline re-issues as `web`
only when the typed provider call raises; a successful response — even with
zero items — is used as-is, and a zero-item success yields an empty content
map. -/
theorem news_fallback_only_on_error (search : String → ProviderCall)
    (gc : String → Bool → String) (query st : String) (mr : ℕ) (r : QwantResponse)
    (hst : st ≠ "web") :
    (search st = ProviderCall.returns r → qwant_dispatch search st = (some r, none)) ∧
    (search st = ProviderCall.raises → search "web" = ProviderCall.returns r →
        qwant_dispatch search st = (some r, none)) ∧
    (search st = ProviderCall.raises → search "web" = ProviderCall.raises →
        qwant_dispatch search st = (none, none)) ∧
    (search st = ProviderCall.returns ⟨true, some (ItemsData.flat [])⟩ →
        contentPairs (qwant_search search gc query st mr) = []) := by
  refine ⟨qwant_dispatch_nonweb_returns search st r hst,
    qwant_dispatch_nonweb_fallback search st r hst,
    ?_, ?_⟩
  · intro h hw
    unfold qwant_dispatch
    rw [if_neg hst, h, hw]
  · intro hr
    have hd := qwant_dispatch_nonweb_returns search st ⟨true, some (ItemsData.flat [])⟩ hst hr
    rw [contentPairs_qwant, hd]
    simp [qwant_collect_empty_items]

/-- Witness for C1 (amended): a concrete non-web oracle returning an empty
item list is used as-is and yields no content entries. -/
theorem news_fallback_only_on_error_witness :
    qwant_dispatch (fun _ => ProviderCall.returns ⟨true, some (ItemsData.flat [])⟩) "news"
      = (some ⟨true, some (ItemsData.flat [])⟩, none) ∧
    contentPairs (qwant_search (fun _ => ProviderCall.returns ⟨true, some (ItemsData.flat [])⟩)
        (fun _ _ => "c") "q" "news" 3) = [] := by
  have h := news_fallback_only_on_error
    (fun _ => ProviderCall.returns ⟨true, some (ItemsData.flat [])⟩)
    (fun _ _ => "c") "q" "news" 3 ⟨true, some (ItemsData.flat [])⟩ (by decide)
  exact ⟨h.1 rfl, h.2.2.2 rfl⟩

/-- C3: the result map holds at most `max_results` content entries; when the
primary result alone offers more distinct eligible URLs than `max_results`,
URL collection stops at exactly `max_results` distinct URLs (before the
fetch stage, which only consumes the first `max_results` collected URLs);
and duplicates are always skipped, so the collected list is duplicate-free. -/
theorem url_collection_cap :
    (∀ (search : String → ProviderCall) (gc : String → Bool → String)
        (query search_type : String) (mr : ℕ),
        (contentPairs (qwant_search search gc query search_type mr)).length ≤ mr) ∧
    (∀ (iv : Bool) (mr : ℕ) (d : ItemsData) (results secondary : Option QwantResponse),
        resp_items results = some d → mr < eligibleCount iv d →
        (qwant_collect iv mr results secondary).length = mr) ∧
    (∀ (iv : Bool) (mr : ℕ) (results secondary : Option QwantResponse),
        (qwant_collect iv mr results secondary).Nodup) :=
  ⟨contentPairs_qwant_le, qwant_collect_exact, qwant_collect_nodup⟩

/-- Witness for C3: two distinct eligible URLs against a cap of one collect
exactly one URL, without duplicates. -/
theorem url_collection_cap_witness :
    (qwant_collect false 1
        (some ⟨true, some (ItemsData.flat
          [⟨some "http://a", none⟩, ⟨some "http://b", none⟩])⟩) none).length = 1 ∧
    (qwant_collect false 1
        (some ⟨true, some (ItemsData.flat
          [⟨some "http://a", none⟩, ⟨some "http://b", none⟩])⟩) none).Nodup :=
  ⟨url_collection_cap.2.1 false 1 _ _ none rfl (by decide),
   url_collection_cap.2.2 false 1 _ none⟩

/-- C4 counterexample: when every provider call raises, the pipeline result
carries no `error` annotation — it is the bare empty `_urls` entry. -/
theorem allfail_no_error_annotation_cex :
    "error" ∉ (qwant_search (fun _ => ProviderCall.raises) (fun _ _ => "x")
        "q" "news" 6).map Prod.fst ∧
    qwant_search (fun _ => ProviderCall.raises) (fun _ _ => "x") "q" "news" 6
      = [("_urls", DictVal.urls [])] := by
  exact ⟨by decide, by decide⟩

/-- C4 (amended): when the whole search dispatch fails (every provider call
raises), the pipeline returns the explicit empty result `{_urls: []}` —
with no `error` annotation — and raises nothing to its caller. -/
theorem allfail_empty_result (search : String → ProviderCall)
    (gc : String → Bool → String) (query st : String) (mr : ℕ)
    (h : ∀ t, search t = ProviderCall.raises) :
    qwant_search search gc query st mr = [("_urls", DictVal.urls [])] :=
  qwant_search_allfail search gc query st mr h

/-- Witness for C4 (amended). -/
theorem allfail_empty_result_witness :
    qwant_search (fun _ => ProviderCall.raises) (fun _ _ => "x") "q" "web" 6
      = [("_urls", DictVal.urls [])] :=
  allfail_empty_result _ _ _ _ _ (fun _ => rfl)

/-- C5 counterexample: a recognized video URL in video context whose
transcript retrieval fails entirely does not produce the empty string — the
extraction falls through to the generic web path and returns its content. -/
theorem video_transcript_failure_not_empty_cex :
    extract_youtube_id "https://youtu.be/abc123" = some "abc123" ∧
    get_youtube_transcript ⟨true, none, none⟩ = "" ∧
    (get_content [] ⟨true, none, none⟩
        (WebFetchOutcome.parsed ["The quick brown fox jumps over the lazy dog"])
        "https://youtu.be/abc123" true).1 ≠ "" := by
  exact ⟨by decide, rfl, by decide⟩

/-- C5 (amended): in video context, when no English transcript is available
the translated fallback transcript is the one used; but when transcript
retrieval yields nothing (both attempts fail, or no transcript exists),
extraction does not return the empty string — it falls through to the
generic web-page extraction path for that URL. -/
theorem video_transcript_fallthrough (cache : ContentCache) (yt : YtOracle)
    (web : WebFetchOutcome) (url vid : String)
    (hmiss : cacheLookup cache (url, true) = none)
    (hvid : extract_youtube_id url = some vid)
    (ht : get_youtube_transcript yt = "") :
    get_content cache yt web url true = get_content_web web (url, true) cache ∧
    (yt.enTranscript = none → chosenTranscript yt = yt.anyTranslated) :=
  ⟨get_content_video_fallthrough cache yt web url vid hmiss hvid ht,
   chosenTranscript_of_no_en yt⟩

/-- Witness for C5 (amended). -/
theorem video_transcript_fallthrough_witness :
    get_content [] ⟨true, none, none⟩ WebFetchOutcome.fail "https://youtu.be/abc123" true
      = get_content_web WebFetchOutcome.fail ("https://youtu.be/abc123", true) [] ∧
    chosenTranscript ⟨true, none, none⟩ = (⟨true, none, none⟩ : YtOracle).anyTranslated := by
  have h := video_transcript_fallthrough [] ⟨true, none, none⟩ WebFetchOutcome.fail
    "https://youtu.be/abc123" "abc123" rfl (by decide) rfl
  exact ⟨h.1, h.2 rfl⟩

/-- C8: an empty or whitespace-only content string is never written to the
content cache, and every content entry of the assembled result map strips to
a nonempty string. -/
theorem no_empty_content_cached_or_returned :
    (∀ (cache : ContentCache) (yt : YtOracle) (web : WebFetchOutcome)
        (url : String) (iv : Bool),
        cacheOk cache = true → cacheOk (get_content cache yt web url iv).2 = true) ∧
    (∀ (search : String → ProviderCall) (gc : String → Bool → String)
        (query search_type : String) (mr : ℕ),
        pairsOk (contentPairs (qwant_search search gc query search_type mr)) = true) :=
  ⟨get_content_cacheOk, qwant_search_pairsOk⟩

/-- Witness for C8: a transcript write through the translated-fallback path
and a full pipeline run both satisfy the invariant. -/
theorem no_empty_content_cached_or_returned_witness :
    cacheOk (get_content [] ⟨true, none, some ⟨some ["hello from the transcript"]⟩⟩
        (WebFetchOutcome.parsed ["fragment text"]) "https://youtu.be/abc123" true).2 = true ∧
    pairsOk (contentPairs (qwant_search (fun _ => ProviderCall.raises)
        (fun _ _ => "y") "q" "web" 3)) = true :=
  ⟨no_empty_content_cached_or_returned.1 [] _ _ _ _ rfl,
   no_empty_content_cached_or_returned.2 _ _ _ _ _⟩

/-- C10: a fallback fetch that succeeds delivers its content under the
original URL, never under the rewritten URL; and each derived fallback URL
is fetched at most once. -/
theorem fallback_maps_original_url (gc : String → Bool → String) (iv : Bool) (url : String) :
    (∀ p, fetch_url_with_semaphore gc iv url = some p → p.1 = url) ∧
    (contentOk (gc url iv) = false → strContains url "github.com" = true →
        contentOk (gc (githubRawUrl url) iv) = true →
        fetch_url_with_semaphore gc iv url = some (url, gc (githubRawUrl url) iv)) ∧
    (contentOk (gc url iv) = false → strContains url "github.com" = false →
        strContains url "docs." = true → contentOk (gc (docsWwwUrl url) iv) = true →
        fetch_url_with_semaphore gc iv url = some (url, gc (docsWwwUrl url) iv)) ∧
    (githubRawUrl url ≠ url → docsWwwUrl url ≠ url → docsBareUrl url ≠ url →
        docsWwwUrl url ≠ docsBareUrl url →
        ((fetch_url_trace gc iv url).2.count (githubRawUrl url) ≤ 1 ∧
         (fetch_url_trace gc iv url).2.count (docsWwwUrl url) ≤ 1 ∧
         (fetch_url_trace gc iv url).2.count (docsBareUrl url) ≤ 1)) :=
  ⟨fetch_url_trace_fst gc iv url,
   fetch_github_fallback gc iv url,
   fetch_docs_fallback gc iv url,
   fetch_url_trace_attempts gc iv url⟩

/-- Witness for C10: a GitHub URL whose raw-mirror fallback succeeds maps
the fallback content under the original URL, and on a URL where all three
rewrites are distinct each derived URL is attempted at most once. -/
theorem fallback_maps_original_url_witness :
    fetch_url_with_semaphore
        (fun u _ => if strContains u "raw.githubusercontent.com" then "RAW" else "")
        false "https://github.com/a/b/blob/m/f.md"
      = some ("https://github.com/a/b/blob/m/f.md",
          (fun u (_ : Bool) => if strContains u "raw.githubusercontent.com" then "RAW" else "")
            (githubRawUrl "https://github.com/a/b/blob/m/f.md") false) ∧
    ((fetch_url_trace (fun _ _ => "") false "https://docs.github.com/en").2.count
        (githubRawUrl "https://docs.github.com/en") ≤ 1 ∧
     (fetch_url_trace (fun _ _ => "") false "https://docs.github.com/en").2.count
        (docsWwwUrl "https://docs.github.com/en") ≤ 1 ∧
     (fetch_url_trace (fun _ _ => "") false "https://docs.github.com/en").2.count
        (docsBareUrl "https://docs.github.com/en") ≤ 1) :=
  ⟨(fallback_maps_original_url
      (fun u _ => if strContains u "raw.githubusercontent.com" then "RAW" else "")
      false "https://github.com/a/b/blob/m/f.md").2.1 (by decide) (by decide) (by decide),
   (fallback_maps_original_url (fun _ _ => "") false "https://docs.github.com/en").2.2.2
      (by decide) (by decide) (by decide) (by decide)⟩
